import Mathlib

/-!
Verification of the streaming gesture-classification pipeline of a
sign-language detection demo.  The definitions below are shallow embeddings
of the TypeScript source: the detector (`src/utils/SignLanguageDetector.ts`
and its historical variants) and the session controller
(`src/context/SignLanguageContext.tsx`, whose second variant is the active
implementation: throttle 200 ms, de-duplication window 2000 ms, history cap
50, decay factor 0.95, clear threshold 0.4).  JavaScript numbers are
modelled as rationals, `Date.now()` timestamps as integers, exceptions as
`Except`, and `null`/`undefined` results as `Option`.
-/

/-- Result type of `SignLanguageDetector.detectGesture`
(`interface DetectionResult { gesture: string; confidence: number }`). -/
structure DetectionResult where
  gesture : String
  confidence : ℚ
deriving DecidableEq

/-- History entry type of the controller
(`interface Prediction { gesture; confidence; timestamp }`). -/
structure Prediction where
  gesture : String
  confidence : ℚ
  timestamp : ℤ
deriving DecidableEq

/-- `private readonly SEQUENCE_LENGTH = 30` in `SignLanguageDetector.ts`. -/
def SEQUENCE_LENGTH : ℕ := 30

/-- One maintenance step of the detector's temporal window
(`SignLanguageDetector.ts`, `detectGesture`):
`this.sequenceBuffer.push(landmarks)` followed by
`if (this.sequenceBuffer.length > this.SEQUENCE_LENGTH) this.sequenceBuffer.shift()`. -/
def sequencePush (buf : List (List ℚ)) (v : List ℚ) : List (List ℚ) :=
  let b := buf ++ [v]
  if SEQUENCE_LENGTH < b.length then b.tail else b

lemma sequencePush_eq_append (buf : List (List ℚ)) (v : List ℚ)
    (h : buf.length < SEQUENCE_LENGTH) : sequencePush buf v = buf ++ [v] := by
  have hc : ¬ SEQUENCE_LENGTH < buf.length + 1 := by omega
  simp [sequencePush, hc]

lemma sequencePush_eq_tail_append (buf : List (List ℚ)) (v : List ℚ)
    (h : buf.length = SEQUENCE_LENGTH) :
    sequencePush buf v = buf.tail ++ [v] := by
  cases buf with
  | nil => simp [SEQUENCE_LENGTH] at h
  | cons a tl =>
      have hc : SEQUENCE_LENGTH < (a :: tl).length + 1 := by omega
      simp only [List.length_cons] at hc
      simp [sequencePush, hc]

lemma sequencePush_length_le (buf : List (List ℚ)) (v : List ℚ)
    (h : buf.length ≤ SEQUENCE_LENGTH) :
    (sequencePush buf v).length ≤ SEQUENCE_LENGTH := by
  by_cases hlt : buf.length < SEQUENCE_LENGTH
  · rw [sequencePush_eq_append buf v hlt]
    simp only [List.length_append, List.length_singleton]
    omega
  · have heq : buf.length = SEQUENCE_LENGTH := by omega
    rw [sequencePush_eq_tail_append buf v heq]
    have ht : buf.tail.length = buf.length - 1 := List.length_tail buf
    have hS : SEQUENCE_LENGTH = 30 := rfl
    simp only [List.length_append, List.length_singleton]
    omega

lemma foldl_sequencePush_length_le (vs : List (List ℚ)) :
    ∀ buf : List (List ℚ), buf.length ≤ SEQUENCE_LENGTH →
      (vs.foldl sequencePush buf).length ≤ SEQUENCE_LENGTH := by
  induction vs with
  | nil => intro buf h; simpa using h
  | cons v vs ih =>
      intro buf h
      simpa using ih (sequencePush buf v) (sequencePush_length_le buf v h)

/-- C5: for every sequence of frames pushed through the pipeline, the
sequence buffer's length stays within `[0, SEQUENCE_LENGTH]`; a push on a
buffer below capacity appends at the tail, and a push on a full buffer
appends at the tail and evicts exactly the oldest element (strict FIFO). -/
theorem C5_sequence_buffer_bound :
    (∀ vs : List (List ℚ),
      (vs.foldl sequencePush []).length ≤ SEQUENCE_LENGTH) ∧
    (∀ buf v, buf.length < SEQUENCE_LENGTH → sequencePush buf v = buf ++ [v]) ∧
    (∀ buf v, buf.length = SEQUENCE_LENGTH →
      sequencePush buf v = buf.tail ++ [v]) := by
  exact ⟨fun vs => foldl_sequencePush_length_le vs [] (by simp),
    sequencePush_eq_append, sequencePush_eq_tail_append⟩

/-- Witness for C5 at concrete inputs. -/
theorem C5_sequence_buffer_bound_witness :
    ((List.replicate 40 ([] : List ℚ)).foldl sequencePush []).length ≤
      SEQUENCE_LENGTH ∧
    sequencePush (List.replicate 2 ([] : List ℚ)) [] =
      List.replicate 2 ([] : List ℚ) ++ [[]] ∧
    sequencePush (List.replicate 30 ([] : List ℚ)) [] =
      (List.replicate 30 ([] : List ℚ)).tail ++ [[]] :=
  ⟨C5_sequence_buffer_bound.1 _,
   C5_sequence_buffer_bound.2.1 _ _ (by simp [SEQUENCE_LENGTH]),
   C5_sequence_buffer_bound.2.2 _ _ (by simp [SEQUENCE_LENGTH])⟩

/-- `labelMap = {0: 'hello', 1: 'thankyou'}` (`SignLanguageDetector.ts`).
An out-of-range JavaScript lookup would yield `undefined`. -/
def labelMap : ℕ → String
  | 0 => "hello"
  | 1 => "thankyou"
  | _ => "undefined"

/-- `Math.max(...predictionData)` over a non-empty array (the detector
applies it to the model's length-2 softmax output). -/
def listMax : List ℚ → ℚ
  | [] => 0
  | x :: xs => xs.foldl max x

/-- `predictionData.indexOf(Math.max(...Array.from(predictionData)))`:
the first index carrying the maximal probability. -/
def maxIndex (l : List ℚ) : ℕ := l.indexOf (listMax l)

/-- The tail of `detectGesture` once `model.predict` has resolved:
take the arg-max class, read its probability, and return a result only if
`confidence > 0.6`; a thrown prediction error is caught by the surrounding
`try` and degrades to `null`. -/
def classifyFromPrediction (res : Except String (List ℚ)) :
    Option DetectionResult :=
  match res with
  | .error _ => none
  | .ok probs =>
      let i := maxIndex probs
      let conf := probs.getD i 0
      if 3/5 < conf then some ⟨labelMap i, conf⟩ else none

/-- Shallow embedding of `SignLanguageDetector.detectGesture`
(`SignLanguageDetector.ts`, the sequence-model detector used by the active
controller).  The asynchronous landmark-extraction outcome and the model's
`predict` call are passed as parameters: `.error` models a thrown
exception, `.ok none` models "no hand detected this frame".  Returns the
detection result together with the updated sequence buffer. -/
def detectGesture (isInitialized : Bool) (buf : List (List ℚ))
    (landmarksResult : Except String (Option (List ℚ)))
    (predict : List (List ℚ) → Except String (List ℚ)) :
    Option DetectionResult × List (List ℚ) :=
  if ¬ isInitialized then (none, buf)
  else
    match landmarksResult with
    | .error _ => (none, buf)
    | .ok none => (none, buf)
    | .ok (some lms) =>
        if lms.length = 0 then (none, buf)
        else
          let b := sequencePush buf lms
          if b.length < SEQUENCE_LENGTH then (none, b)
          else (classifyFromPrediction (predict b), b)

/-- C6 counterexample: with 10 frames accumulated (the spec's example
"warm enough" threshold) and a classifier that would answer `hello` with
probability 1 on any input, `detectGesture` still produces no
classification: the short window is never zero-padded, the classifier is
not consulted, and the frame only grows the buffer. -/
theorem C6_counterexample :
    detectGesture true (List.replicate 10 [(0 : ℚ)]) (.ok (some [(0 : ℚ)]))
      (fun _ => .ok [1, 0]) =
    (none, List.replicate 11 [(0 : ℚ)]) := by
  decide

/-- C6 amended: when the buffer after the push holds fewer than
`SEQUENCE_LENGTH` vectors, `detectGesture` returns `null` without
assembling any classifier input (no zero-padding); a classification is
attempted only once the buffer holds at least `SEQUENCE_LENGTH` vectors,
and the classifier input is then exactly the unpadded buffer. -/
theorem C6_short_window_no_classification :
    (∀ (buf : List (List ℚ)) (lms : List ℚ)
        (predict : List (List ℚ) → Except String (List ℚ)),
      lms.length ≠ 0 → (sequencePush buf lms).length < SEQUENCE_LENGTH →
      detectGesture true buf (.ok (some lms)) predict =
        (none, sequencePush buf lms)) ∧
    (∀ (buf : List (List ℚ)) (lms : List ℚ)
        (predict : List (List ℚ) → Except String (List ℚ)),
      lms.length ≠ 0 → ¬ (sequencePush buf lms).length < SEQUENCE_LENGTH →
      detectGesture true buf (.ok (some lms)) predict =
        (classifyFromPrediction (predict (sequencePush buf lms)),
         sequencePush buf lms)) := by
  constructor
  · intro buf lms predict hlms hshort
    simp [detectGesture, hlms, hshort]
  · intro buf lms predict hlms hfull
    simp [detectGesture, hlms, hfull]

/-- Witness for the amended C6 at concrete inputs. -/
theorem C6_short_window_no_classification_witness :
    detectGesture true (List.replicate 5 [(0 : ℚ)]) (.ok (some [(0 : ℚ)]))
        (fun _ => .ok [1, 0]) =
      (none, sequencePush (List.replicate 5 [(0 : ℚ)]) [(0 : ℚ)]) ∧
    detectGesture true (List.replicate 29 [(0 : ℚ)]) (.ok (some [(0 : ℚ)]))
        (fun _ => .ok [1, 0]) =
      (classifyFromPrediction ((fun _ => .ok [1, 0])
          (sequencePush (List.replicate 29 [(0 : ℚ)]) [(0 : ℚ)])),
       sequencePush (List.replicate 29 [(0 : ℚ)]) [(0 : ℚ)]) :=
  ⟨C6_short_window_no_classification.1 _ _ _ (by decide) (by decide),
   C6_short_window_no_classification.2 _ _ _ (by decide) (by decide)⟩

/-- State of the active `SignLanguageProvider`
(`SignLanguageContext.tsx`, second variant): the React state
`isDetecting`, `currentPrediction`, `confidence`, `predictionHistory`, and
the live refs `processingRef` and `lastProcessTimeRef`. -/
structure CtrlState where
  isDetecting : Bool
  currentPrediction : Option String
  confidence : ℚ
  predictionHistory : List Prediction
  processing : Bool
  lastProcessTime : ℤ
deriving DecidableEq

/-- `array.slice(-n)`: the last `n` elements of a list. -/
def sliceLast (n : ℕ) (l : List α) : List α := l.drop (l.length - n)

/-- The history updater of the active `processFrame`
(`setPredictionHistory(prev => ...)`): skip the append when the new
prediction repeats the last entry's gesture within 2000 ms, otherwise
append and keep only the last 50 entries (`updated.slice(-50)`). -/
def appendPrediction (prev : List Prediction) (p : Prediction) :
    List Prediction :=
  match prev.getLast? with
  | some lastP =>
      if lastP.gesture = p.gesture ∧ p.timestamp - lastP.timestamp < 2000 then
        prev
      else sliceLast 50 (prev ++ [p])
  | none => sliceLast 50 (prev ++ [p])

/-- The body of the active `processFrame` after
`await detectorRef.current.detectGesture(canvas)` resolves.  React closure
semantics: the callback body reads the `isDetecting` and `confidence`
state values captured at the render that created the callback (passed here
as `capturedDetecting` and `capturedConfidence`), while functional
updaters (`setX(prev => ...)`) and refs read the live state `s`.  All
paths release the processing flag (`finally`). -/
def applyResult (capturedDetecting : Bool) (capturedConfidence : ℚ)
    (now : ℤ) (result : Option DetectionResult) (s : CtrlState) : CtrlState :=
  if ¬ capturedDetecting then { s with processing := false }
  else
    match result with
    | some r =>
        if 1/2 < r.confidence then
          let p : Prediction := ⟨r.gesture, r.confidence, now⟩
          let s1 := { s with currentPrediction := some r.gesture,
                             confidence := r.confidence }
          let s2 :=
            if 1/2 < r.confidence then
              { s1 with predictionHistory :=
                  appendPrediction s1.predictionHistory p }
            else s1
          { s2 with processing := false }
        else
          { s with confidence := max 0 (s.confidence * (19/20)),
                   currentPrediction :=
                     if capturedConfidence < 2/5 then none
                     else s.currentPrediction,
                   processing := false }
    | none =>
        { s with confidence := max 0 (s.confidence * (19/20)),
                 currentPrediction :=
                   if capturedConfidence < 2/5 then none
                   else s.currentPrediction,
                 processing := false }

/-- The front guards of the active `processFrame`: frames submitted while
not detecting, while a classification is in flight, or within 200 ms of
the last accepted frame are dropped; an accepted frame sets the processing
flag and the last-process time.  The boolean reports whether a
classification attempt started. -/
def submitFrame (hasDetector modelLoaded : Bool) (s : CtrlState)
    (now : ℤ) : CtrlState × Bool :=
  if ¬ hasDetector ∨ ¬ s.isDetecting ∨ ¬ modelLoaded then (s, false)
  else if s.processing then (s, false)
  else if now - s.lastProcessTime < 200 then (s, false)
  else ({ s with processing := true, lastProcessTime := now }, true)

/-- One fully processed frame of the active `processFrame` in the
sequential schedule (a render occurs between frames, so the captured
state values equal the live ones): the guards, then the awaited detector
outcome (`.error` models a thrown exception caught by the `catch`), then
the result application. -/
def processFrame (hasDetector modelLoaded : Bool) (s : CtrlState)
    (outcome : Except String (Option DetectionResult)) (now : ℤ) :
    CtrlState :=
  let sub := submitFrame hasDetector modelLoaded s now
  if ¬ sub.2 then sub.1
  else
    match outcome with
    | .error _ => { sub.1 with processing := false }
    | .ok result => applyResult s.isDetecting s.confidence now result sub.1

/-- `stopDetection` of the active controller: stop detecting, clear the
current prediction and confidence, release the processing flag.  The
history is kept. -/
def stopDetection (s : CtrlState) : CtrlState :=
  { s with isDetecting := false, currentPrediction := none,
           confidence := 0, processing := false }

/-- One processed no-detection frame: `applyResult` in the branch where no
qualifying classification arrived, with captured values equal to the live
state (sequential schedule). -/
def decayStep (s : CtrlState) : CtrlState :=
  applyResult true s.confidence 0 none s

/-- The state after `n` processed no-detection frames. -/
def decayIter : ℕ → CtrlState → CtrlState
  | 0, s => s
  | n + 1, s => decayStep (decayIter n s)

/-- The de-duplication invariant on the prediction history: any two
consecutive entries carrying the same gesture are at least 2000 ms apart. -/
def dedupOK (l : List Prediction) : Prop :=
  List.Chain'
    (fun a b => a.gesture = b.gesture → 2000 ≤ b.timestamp - a.timestamp) l

lemma getLast?_sliceLast_concat (l : List Prediction) (p : Prediction) :
    (sliceLast 50 (l ++ [p])).getLast? = some p := by
  unfold sliceLast
  rw [List.getLast?_drop]
  have hlen : ¬ (l ++ [p]).length ≤ (l ++ [p]).length - 50 := by
    simp only [List.length_append, List.length_singleton]
    omega
  rw [if_neg hlen, List.getLast?_concat]

lemma dedupOK_appendPrediction (prev : List Prediction) (p : Prediction)
    (h : dedupOK prev) : dedupOK (appendPrediction prev p) := by
  unfold appendPrediction
  cases hlast : prev.getLast? with
  | none =>
      have hnil : prev = [] := List.getLast?_eq_none_iff.mp hlast
      subst hnil
      simp [sliceLast, dedupOK]
  | some lastP =>
      by_cases hskip :
          lastP.gesture = p.gesture ∧ p.timestamp - lastP.timestamp < 2000
      · simpa [hskip] using h
      · simp only [hskip, if_false]
        unfold dedupOK sliceLast
        apply List.Chain'.drop
        rw [List.chain'_append]
        refine ⟨h, List.chain'_singleton _, ?_⟩
        intro x hx y hy
        rw [hlast, Option.mem_def, Option.some_inj] at hx
        simp only [List.head?_cons, Option.mem_def, Option.some_inj] at hy
        subst hx; subst hy
        intro hg
        rw [not_and] at hskip
        have := hskip hg
        omega

lemma dedupOK_foldl (ps : List Prediction) :
    ∀ prev : List Prediction, dedupOK prev →
      dedupOK (ps.foldl appendPrediction prev) := by
  induction ps with
  | nil => intro prev h; simpa using h
  | cons p ps ih =>
      intro prev h
      simpa using ih (appendPrediction prev p) (dedupOK_appendPrediction prev p h)

/-- C1: for every sequence of processed frames, any two consecutive history
entries with the same gesture are at least 2000 ms apart; the first-ever
entry is appended unconditionally, and an entry whose gesture differs from
the last entry's gesture is appended without a time constraint. -/
theorem C1_dedup_invariant :
    (∀ ps : List Prediction, dedupOK (ps.foldl appendPrediction [])) ∧
    (∀ p : Prediction, appendPrediction [] p = [p]) ∧
    (∀ (prev : List Prediction) (p lastP : Prediction),
      prev.getLast? = some lastP → lastP.gesture ≠ p.gesture →
      (appendPrediction prev p).getLast? = some p) := by
  refine ⟨fun ps => dedupOK_foldl ps [] (by simp [dedupOK]), ?_, ?_⟩
  · intro p
    simp [appendPrediction, sliceLast]
  · intro prev p lastP hlast hg
    unfold appendPrediction
    rw [hlast]
    have hskip :
        ¬ (lastP.gesture = p.gesture ∧ p.timestamp - lastP.timestamp < 2000) := by
      intro hc
      exact hg hc.1
    simp only [hskip, if_false]
    exact getLast?_sliceLast_concat prev p

/-- Witness for C1 at a concrete input: a `thankyou` entry following a
`hello` entry 100 ms earlier is appended. -/
theorem C1_dedup_invariant_witness :
    (appendPrediction [⟨"hello", 4/5, 0⟩] ⟨"thankyou", 4/5, 100⟩).getLast? =
      some ⟨"thankyou", 4/5, 100⟩ :=
  C1_dedup_invariant.2.2 [⟨"hello", 4/5, 0⟩] ⟨"thankyou", 4/5, 100⟩
    ⟨"hello", 4/5, 0⟩ (by rfl) (by decide)

lemma decayStep_confidence (s : CtrlState) :
    (decayStep s).confidence = max 0 (s.confidence * (19/20)) := rfl

lemma decayStep_currentPrediction (s : CtrlState) :
    (decayStep s).currentPrediction =
      if s.confidence < 2/5 then none else s.currentPrediction := rfl

lemma decayIter_confidence_nonneg (s : CtrlState) (h : 0 ≤ s.confidence) :
    ∀ n, 0 ≤ (decayIter n s).confidence
  | 0 => h
  | n + 1 => by
      rw [decayIter, decayStep_confidence]
      exact le_max_left 0 _

lemma decayIter_confidence_le_pow (s : CtrlState) (h : 0 ≤ s.confidence) :
    ∀ n, (decayIter n s).confidence ≤ s.confidence * (19/20) ^ n
  | 0 => by simp [decayIter]
  | n + 1 => by
      rw [decayIter, decayStep_confidence]
      apply max_le
      · positivity
      · have ih := decayIter_confidence_le_pow s h n
        calc (decayIter n s).confidence * (19/20) ≤
              (s.confidence * (19/20) ^ n) * (19/20) := by
                apply mul_le_mul_of_nonneg_right ih
                norm_num
          _ = s.confidence * (19/20) ^ (n + 1) := by ring

/-- C2 amended: while every frame yields no qualifying classification, the
published confidence is non-increasing and never negative, and it drops
below every positive bound after finitely many frames — but it decays
geometrically (factor 0.95 with floor 0) and never reaches exactly 0 from
a positive value; once the decayed confidence has dropped below the clear
threshold 0.4, the current label is cleared on the next processed
no-detection frame. -/
theorem C2_decay_monotone_and_clears (s : CtrlState) (h : 0 ≤ s.confidence) :
    (∀ n, (decayIter (n + 1) s).confidence ≤ (decayIter n s).confidence) ∧
    (∀ n, 0 ≤ (decayIter n s).confidence) ∧
    (∀ ε : ℚ, 0 < ε → ∃ n, (decayIter n s).confidence < ε) ∧
    (∀ n, (decayIter n s).confidence < 2/5 →
      (decayIter (n + 1) s).currentPrediction = none) := by
  refine ⟨?_, decayIter_confidence_nonneg s h, ?_, ?_⟩
  · intro n
    rw [decayIter, decayStep_confidence]
    apply max_le (decayIter_confidence_nonneg s h n)
    apply mul_le_of_le_one_right (decayIter_confidence_nonneg s h n)
    norm_num
  · intro ε hε
    rcases eq_or_lt_of_le h with hzero | hpos
    · exact ⟨0, by simpa [decayIter] using hzero ▸ hε⟩
    · obtain ⟨n, hn⟩ :=
        exists_pow_lt_of_lt_one (div_pos hε hpos)
          (show (19:ℚ)/20 < 1 by norm_num)
      refine ⟨n, lt_of_le_of_lt (decayIter_confidence_le_pow s h n) ?_⟩
      calc s.confidence * (19/20) ^ n <
            s.confidence * (ε / s.confidence) :=
              mul_lt_mul_of_pos_left hn hpos
        _ = ε := by
              rw [mul_comm]
              exact div_mul_cancel₀ ε (ne_of_gt hpos)
  · intro n hn
    rw [decayIter, decayStep_currentPrediction, if_pos hn]

/-- A concrete reachable controller state: detecting, current label
`hello`, confidence 0.8. -/
def decayStart : CtrlState :=
  { isDetecting := true, currentPrediction := some "hello",
    confidence := 4/5, predictionHistory := [], processing := false,
    lastProcessTime := 0 }

/-- Witness for the amended C2 at a concrete state. -/
theorem C2_decay_monotone_and_clears_witness :
    (0 : ℚ) ≤ decayStart.confidence ∧
    ∃ n, (decayIter n decayStart).confidence < 1/100 :=
  ⟨by norm_num [decayStart],
   (C2_decay_monotone_and_clears decayStart (by norm_num [decayStart])).2.2.1
     (1/100) (by norm_num)⟩

/-- C2 counterexample: from the reachable state with confidence 0.8, the
decayed confidence equals `0.8 · 0.95^n` and never becomes exactly 0 after
any finite number of no-detection frames, contrary to the claim that it
reaches exactly 0. -/
theorem C2_counterexample :
    ¬ ∃ n : ℕ, (decayIter n decayStart).confidence = 0 := by
  rintro ⟨n, hn⟩
  have hpos : ∀ m, 0 < (decayIter m decayStart).confidence := by
    intro m
    induction m with
    | zero => norm_num [decayStart, decayIter]
    | succ k ih =>
        rw [decayIter, decayStep_confidence]
        have hk : 0 < (decayIter k decayStart).confidence * (19/20) := by
          positivity
        exact lt_max_of_lt_right hk
  exact (hpos n).ne' hn

/-- C3 (code bug): `stopDetection` during an in-flight classification does
NOT cause the late result to be discarded.  The resumed `processFrame`
body checks the `isDetecting` value captured when the callback was created
(still `true`), not a live flag, so the late result is applied to the
stopped session: it is appended to the history and published as the
current label.  The last conjunct shows the check itself is the intended
cancellation mechanism: with the captured flag `false` — the value a live
read would return after `stopDetection` — the result would be discarded
and the stopped state left unchanged. -/
theorem C3_late_result_applied_after_stop :
    (applyResult true (4/5) 1000 (some ⟨"hello", 4/5⟩)
        (stopDetection decayStart)).predictionHistory =
      [⟨"hello", 4/5, 1000⟩] ∧
    (applyResult true (4/5) 1000 (some ⟨"hello", 4/5⟩)
        (stopDetection decayStart)).currentPrediction = some "hello" ∧
    (stopDetection decayStart).predictionHistory = [] ∧
    (stopDetection decayStart).currentPrediction = none ∧
    applyResult false (4/5) 1000 (some ⟨"hello", 4/5⟩)
        (stopDetection decayStart) = stopDetection decayStart := by
  have hc : (1:ℚ)/2 < 4/5 := by norm_num
  have hc' : (2⁻¹ : ℚ) < 4/5 := by norm_num
  refine ⟨?_, ?_, rfl, rfl, ?_⟩
  · simp [applyResult, stopDetection, decayStart, hc, hc', appendPrediction,
      sliceLast]
  · simp [applyResult, stopDetection, decayStart, hc, hc']
  · simp [applyResult, stopDetection, decayStart]

lemma submitFrame_accepted {hasDetector modelLoaded : Bool} {s : CtrlState}
    {t : ℤ} (h : (submitFrame hasDetector modelLoaded s t).2 = true) :
    (submitFrame hasDetector modelLoaded s t).1 =
      { s with processing := true, lastProcessTime := t } := by
  unfold submitFrame at h ⊢
  repeat' split at h
  all_goals try simp_all
  all_goals rw [if_neg (show ¬ t - s.lastProcessTime < 200 by omega)]

lemma submitFrame_guards {hasDetector modelLoaded : Bool} {s : CtrlState}
    {t : ℤ} (h : (submitFrame hasDetector modelLoaded s t).2 = true) :
    hasDetector = true ∧ s.isDetecting = true ∧ modelLoaded = true := by
  unfold submitFrame at h
  repeat' split at h
  all_goals simp_all

/-- C4: throttling and single-flight.  If a frame submitted at time `t1`
started a classification attempt, then a second frame submitted at `t2`
with `t2 - t1 < 200` is dropped with the refs unchanged — both while the
first classification is still in flight (single-flight guard) and after it
completed and released the processing flag (throttle guard).  A frame
submitted while any classification is in flight is likewise dropped, never
queued. -/
theorem C4_throttle_single_flight :
    (∀ (hasDetector modelLoaded : Bool) (s : CtrlState) (t1 t2 : ℤ),
      (submitFrame hasDetector modelLoaded s t1).2 = true →
      t2 - t1 < 200 →
      submitFrame hasDetector modelLoaded
          { (submitFrame hasDetector modelLoaded s t1).1 with
              processing := false } t2 =
        ({ (submitFrame hasDetector modelLoaded s t1).1 with
            processing := false }, false)) ∧
    (∀ (hasDetector modelLoaded : Bool) (s : CtrlState) (t : ℤ),
      s.processing = true →
      submitFrame hasDetector modelLoaded s t = (s, false)) := by
  constructor
  · intro hasDetector modelLoaded s t1 t2 hacc ht
    obtain ⟨hD, hI, hM⟩ := submitFrame_guards hacc
    rw [submitFrame_accepted hacc]
    simp [submitFrame, hD, hI, hM, ht]
  · intro hasDetector modelLoaded s t hproc
    unfold submitFrame
    rw [hproc]
    split <;> simp

/-- A concrete idle detecting state (integer confidence, so that concrete
evaluation stays within kernel-reducible arithmetic). -/
def idleState : CtrlState :=
  { isDetecting := true, currentPrediction := none, confidence := 0,
    predictionHistory := [], processing := false, lastProcessTime := 0 }

/-- Witness for C4 at concrete inputs: a frame at t=500 is accepted, a
second frame at t=600 is dropped both in flight and after completion. -/
theorem C4_throttle_single_flight_witness :
    submitFrame true true
        { (submitFrame true true idleState 500).1 with processing := false }
        600 =
      ({ (submitFrame true true idleState 500).1 with processing := false },
       false) ∧
    submitFrame true true (submitFrame true true idleState 500).1 600 =
      ((submitFrame true true idleState 500).1, false) :=
  ⟨C4_throttle_single_flight.1 true true idleState 500 600 (by rfl)
     (by decide),
   C4_throttle_single_flight.2 true true (submitFrame true true idleState 500).1
     600 (by rfl)⟩

lemma submitFrame_fst_fields (hasDetector modelLoaded : Bool)
    (s : CtrlState) (t : ℤ) :
    (submitFrame hasDetector modelLoaded s t).1.predictionHistory =
      s.predictionHistory ∧
    (submitFrame hasDetector modelLoaded s t).1.currentPrediction =
      s.currentPrediction ∧
    (submitFrame hasDetector modelLoaded s t).1.confidence = s.confidence := by
  unfold submitFrame
  repeat' split
  all_goals simp

/-- C9: frame-error containment.  A thrown landmark extraction is caught at
the frame boundary and yields "no detection" with the buffer untouched; a
thrown classification is caught and yields "no detection" (the buffer
keeps the already-pushed frame, as in the source); and at the controller a
detector exception caught by `processFrame`'s `catch` leaves the session
state — history, current label and confidence — unchanged, so a single
bad frame never terminates the loop or the session. -/
theorem C9_frame_errors_contained :
    (∀ (buf : List (List ℚ))
        (predict : List (List ℚ) → Except String (List ℚ)) (e : String),
      detectGesture true buf (.error e) predict = (none, buf)) ∧
    (∀ (buf : List (List ℚ)) (lms : List ℚ)
        (predict : List (List ℚ) → Except String (List ℚ)) (e : String),
      lms.length ≠ 0 → predict (sequencePush buf lms) = .error e →
      detectGesture true buf (.ok (some lms)) predict =
        (none, sequencePush buf lms)) ∧
    (∀ (hasDetector modelLoaded : Bool) (s : CtrlState) (e : String)
        (now : ℤ),
      (processFrame hasDetector modelLoaded s (.error e) now).predictionHistory =
        s.predictionHistory ∧
      (processFrame hasDetector modelLoaded s (.error e) now).currentPrediction =
        s.currentPrediction ∧
      (processFrame hasDetector modelLoaded s (.error e) now).confidence =
        s.confidence) := by
  refine ⟨?_, ?_, ?_⟩
  · intro buf predict e
    simp [detectGesture]
  · intro buf lms predict e hlms hpred
    by_cases hlen : (sequencePush buf lms).length < SEQUENCE_LENGTH
    · simp [detectGesture, hlms, hlen]
    · simp [detectGesture, hlms, hlen, hpred, classifyFromPrediction]
  · intro hasDetector modelLoaded s e now
    obtain ⟨hh, hp, hc⟩ := submitFrame_fst_fields hasDetector modelLoaded s now
    by_cases hgo : (submitFrame hasDetector modelLoaded s now).2 = true
    · simp [processFrame, hgo, hh, hp, hc]
    · simp [processFrame, hgo, hh, hp, hc]

/-- Witness for C9 at concrete inputs: an extraction error and a
classification error on a warm buffer both degrade to "no detection". -/
theorem C9_frame_errors_contained_witness :
    detectGesture true [[(0 : ℚ)]] (.error "extraction failed")
        (fun _ => .ok [1, 0]) = (none, [[(0 : ℚ)]]) ∧
    detectGesture true (List.replicate 29 [(0 : ℚ)]) (.ok (some [(0 : ℚ)]))
        (fun _ => .error "predict failed") =
      (none, sequencePush (List.replicate 29 [(0 : ℚ)]) [(0 : ℚ)]) :=
  ⟨C9_frame_errors_contained.1 [[(0 : ℚ)]] _ "extraction failed",
   C9_frame_errors_contained.2.1 (List.replicate 29 [(0 : ℚ)]) [(0 : ℚ)]
     (fun _ => .error "predict failed") "predict failed" (by decide) rfl⟩

/-- `gestureSequence.push(gestureIndex)` followed by
`if (this.gestureSequence.length > 5) this.gestureSequence.shift()`
(`part_008`, the mock detector variant with a rolling label buffer). -/
def pushGesture (seq : List ℕ) (g : ℕ) : List ℕ :=
  let b := seq ++ [g]
  if 5 < b.length then b.tail else b

/-- The ascending list of distinct gesture indices in the buffer:
JavaScript objects iterate integer-like keys in ascending order, so
`Object.entries(counts)` enumerates exactly these keys. -/
def objectKeys (seq : List ℕ) : List ℕ :=
  (List.range (seq.foldr max 0 + 1)).filter (fun k => decide (k ∈ seq))

/-- One step of `getMostCommonGesture`'s loop over `Object.entries(counts)`:
keep the key with the strictly largest count seen so far
(`count > maxCount`), starting from `maxCount = 0`, `mostCommon = -1`
(modelled as `none`). -/
def argmaxStep (seq : List ℕ) (acc : Option (ℕ × ℕ)) (k : ℕ) :
    Option (ℕ × ℕ) :=
  match acc with
  | none => if 0 < seq.count k then some (k, seq.count k) else none
  | some (mg, mc) =>
      if mc < seq.count k then some (k, seq.count k) else some (mg, mc)

/-- `getMostCommonGesture` (`part_008`): the most frequent gesture index in
the rolling buffer (ties to the lowest index); `-1` (here `none`) unless
its count reaches `Math.ceil(length * 0.6)`, which for the buffer's
length ≤ 5 equals `(3·length + 4) / 5` in integer arithmetic. -/
def getMostCommonGesture (seq : List ℕ) : Option ℕ :=
  if seq.length = 0 then none
  else
    match (objectKeys seq).foldl (argmaxStep seq) none with
    | none => none
    | some (mg, mc) =>
        if (3 * seq.length + 4) / 5 ≤ mc then some mg else none

/-- Lines 62–73 of `part_008`'s `detectGesture`: push the raw index into
the rolling buffer, then override the raw classification with the most
common recent gesture (confidence boosted by 0.1, capped at 0.95) when one
qualifies. -/
def stabilizeGesture (seq : List ℕ) (g : ℕ) (c : ℚ) : List ℕ × ℕ × ℚ :=
  let b := pushGesture seq g
  match getMostCommonGesture b with
  | some m => (b, m, min (c + 1/10) (19/20))
  | none => (b, g, c)

lemma foldr_max_le (seq : List ℕ) : ∀ k ∈ seq, k ≤ seq.foldr max 0 := by
  induction seq with
  | nil => simp
  | cons a tl ih =>
      intro k hk
      rcases List.mem_cons.mp hk with rfl | hk'
      · exact le_max_left _ _
      · exact le_trans (ih k hk') (le_max_right _ _)

lemma mem_objectKeys {seq : List ℕ} {k : ℕ} : k ∈ objectKeys seq ↔ k ∈ seq := by
  unfold objectKeys
  simp only [List.mem_filter, List.mem_range, decide_eq_true_eq]
  exact ⟨fun h => h.2,
    fun h => ⟨Nat.lt_succ_of_le (foldr_max_le seq k h), h⟩⟩

lemma count_add_count_le (seq : List ℕ) {k g : ℕ} (h : k ≠ g) :
    seq.count k + seq.count g ≤ seq.length := by
  rw [List.length_eq_countP_add_countP (fun x => x == k) seq,
      List.count_eq_countP, List.count_eq_countP]
  have hmono : List.countP (fun x => x == g) seq ≤
      List.countP (fun a => decide (¬ (a == k) = true)) seq := by
    apply List.countP_mono_left
    intro x hx hxg
    simp only [beq_iff_eq] at hxg
    subst hxg
    simpa [beq_iff_eq] using Ne.symm h
  omega

lemma foldl_argmax_keep (seq : List ℕ) (g : ℕ) (keys : List ℕ) :
    (∀ k ∈ keys, seq.count k ≤ seq.count g) →
      keys.foldl (argmaxStep seq) (some (g, seq.count g)) =
        some (g, seq.count g) := by
  induction keys with
  | nil => intro _; rfl
  | cons k rest ih =>
      intro hk
      have hle : seq.count k ≤ seq.count g := hk k (by simp)
      have hstep : argmaxStep seq (some (g, seq.count g)) k =
          some (g, seq.count g) := by
        simp only [argmaxStep]
        rw [if_neg (not_lt.mpr hle)]
      rw [List.foldl_cons, hstep]
      exact ih (fun k' hk' => hk k' (by simp [hk']))

lemma foldl_argmax_unique (seq : List ℕ) (g : ℕ) (hgpos : 0 < seq.count g)
    (hmax : ∀ k, k ≠ g → seq.count k < seq.count g) (keys : List ℕ) :
    g ∈ keys →
      ∀ acc : Option (ℕ × ℕ),
        (acc = none ∨ ∃ m, m ≠ g ∧ acc = some (m, seq.count m)) →
        keys.foldl (argmaxStep seq) acc = some (g, seq.count g) := by
  induction keys with
  | nil => intro h; simp at h
  | cons k rest ih =>
      intro hg acc hacc
      rw [List.foldl_cons]
      by_cases hkg : k = g
      · subst hkg
        have hstep : argmaxStep seq acc k = some (k, seq.count k) := by
          rcases hacc with rfl | ⟨m, hmne, rfl⟩
          · simp only [argmaxStep]
            rw [if_pos hgpos]
          · simp only [argmaxStep]
            rw [if_pos (hmax m hmne)]
        rw [hstep]
        exact foldl_argmax_keep seq k rest
          (fun k' _ => by
            rcases eq_or_ne k' k with rfl | hne
            · exact le_refl _
            · exact (hmax k' hne).le)
      · have hgrest : g ∈ rest := by
          rcases List.mem_cons.mp hg with h | h
          · exact absurd h.symm hkg
          · exact h
        apply ih hgrest
        rcases hacc with rfl | ⟨m, hmne, rfl⟩
        · simp only [argmaxStep]
          by_cases h0 : 0 < seq.count k
          · rw [if_pos h0]
            exact Or.inr ⟨k, hkg, rfl⟩
          · rw [if_neg h0]
            exact Or.inl rfl
        · simp only [argmaxStep]
          by_cases hlt : seq.count m < seq.count k
          · rw [if_pos hlt]
            exact Or.inr ⟨k, hkg, rfl⟩
          · rw [if_neg hlt]
            exact Or.inr ⟨m, hmne, rfl⟩

lemma foldl_argmax_shape (seq : List ℕ) (keys : List ℕ) :
    ∀ acc : Option (ℕ × ℕ),
      (acc = none ∨ ∃ m, acc = some (m, seq.count m)) →
      (keys.foldl (argmaxStep seq) acc = none ∨
        ∃ m, keys.foldl (argmaxStep seq) acc = some (m, seq.count m)) := by
  induction keys with
  | nil => intro acc h; simpa using h
  | cons k rest ih =>
      intro acc hacc
      rw [List.foldl_cons]
      apply ih
      rcases hacc with rfl | ⟨m, rfl⟩
      · simp only [argmaxStep]
        by_cases h0 : 0 < seq.count k
        · rw [if_pos h0]
          exact Or.inr ⟨k, rfl⟩
        · rw [if_neg h0]
          exact Or.inl rfl
      · simp only [argmaxStep]
        by_cases hlt : seq.count m < seq.count k
        · rw [if_pos hlt]
          exact Or.inr ⟨k, rfl⟩
        · rw [if_neg hlt]
          exact Or.inr ⟨m, rfl⟩

lemma pushGesture_length_pos (seq : List ℕ) (g : ℕ) :
    0 < (pushGesture seq g).length := by
  have hlen : (seq ++ [g]).length = seq.length + 1 := by simp
  by_cases h5 : 5 < (seq ++ [g]).length
  · simp only [pushGesture, if_pos h5, List.length_tail]
    omega
  · simp only [pushGesture, if_neg h5]
    omega

/-- C7 amended: for every raw classification accepted into the rolling
label buffer (FIFO, capacity 5), if some label's support over the
post-push buffer reaches the code's threshold `Math.ceil(K * 0.6)` (not
the claim's `ceil(K/2)`), that label is promoted as the stabilized label
with confidence `min(raw + 0.1, 0.95)`; if no label reaches that support,
the raw label and confidence are kept unboosted. -/
theorem C7_majority_promotion :
    (∀ (seq : List ℕ) (g ℓ : ℕ) (c : ℚ),
      (3 * (pushGesture seq g).length + 4) / 5 ≤ (pushGesture seq g).count ℓ →
      stabilizeGesture seq g c =
        (pushGesture seq g, ℓ, min (c + 1/10) (19/20))) ∧
    (∀ (seq : List ℕ) (g : ℕ) (c : ℚ),
      (∀ k ∈ pushGesture seq g, (pushGesture seq g).count k <
        (3 * (pushGesture seq g).length + 4) / 5) →
      stabilizeGesture seq g c = (pushGesture seq g, g, c)) := by
  constructor
  · intro seq g ℓ c hsup
    have hblen := pushGesture_length_pos seq g
    set b := pushGesture seq g with hb
    have hcle := List.count_le_length (l := b) (a := ℓ)
    have hpos : 0 < b.count ℓ := by omega
    have hmaxx : ∀ k, k ≠ ℓ → b.count k < b.count ℓ := by
      intro k hk
      by_cases hkmem : k ∈ b
      · have hsum := count_add_count_le b hk
        omega
      · have h0 : b.count k = 0 := List.count_eq_zero.mpr hkmem
        omega
    have hfold := foldl_argmax_unique b ℓ hpos hmaxx (objectKeys b)
      (mem_objectKeys.mpr (List.count_pos_iff.mp hpos)) none (Or.inl rfl)
    have hne : ¬ b.length = 0 := by omega
    have hG : getMostCommonGesture b = some ℓ := by
      simp only [getMostCommonGesture, hfold]
      rw [if_neg hne]
      simp [hsup]
    simp only [stabilizeGesture, ← hb, hG]
  · intro seq g c hlt
    have hblen := pushGesture_length_pos seq g
    set b := pushGesture seq g with hb
    have hshape := foldl_argmax_shape b (objectKeys b) none (Or.inl rfl)
    have hne : ¬ b.length = 0 := by omega
    have hG : getMostCommonGesture b = none := by
      rcases hshape with hn | ⟨m, hm⟩
      · simp only [getMostCommonGesture, hn]
        rw [if_neg hne]
      · have hmlt : b.count m < (3 * b.length + 4) / 5 := by
          by_cases hmem : m ∈ b
          · exact hlt m hmem
          · have h0 : b.count m = 0 := List.count_eq_zero.mpr hmem
            omega
        simp only [getMostCommonGesture, hm]
        rw [if_neg hne]
        simp [not_le.mpr hmlt]
    simp only [stabilizeGesture, ← hb, hG]

/-- Witness for the amended C7: three agreeing `hello` frames are promoted
with boosted confidence; a split 1-vs-1 buffer keeps the raw result. -/
theorem C7_majority_promotion_witness :
    stabilizeGesture [0, 0] 0 (1/2) =
      (pushGesture [0, 0] 0, 0, min ((1:ℚ)/2 + 1/10) (19/20)) ∧
    stabilizeGesture [0] 1 (1/2) = (pushGesture [0] 1, 1, 1/2) :=
  ⟨C7_majority_promotion.1 [0, 0] 0 0 (1/2) (by decide),
   C7_majority_promotion.2 [0] 1 (1/2) (by decide)⟩

/-- C7 counterexample: in the reachable rolling buffer `[0, 1]` (length
K = 2), label 0 has support `1 ≥ ceil(K/2) = 1`, so the claim requires a
promotion with boosted confidence `min(0.7 + 0.1, 0.95) = 0.8`; the code's
threshold is `ceil(K * 0.6) = 2`, so `getMostCommonGesture` returns none
and the raw result `(1, 0.7)` is kept unboosted. -/
theorem C7_counterexample :
    ((pushGesture [0] 1).length + 1) / 2 ≤ (pushGesture [0] 1).count 0 ∧
    getMostCommonGesture (pushGesture [0] 1) = none ∧
    stabilizeGesture [0] 1 (7/10) = ([0, 1], 1, 7/10) ∧
    (7/10 : ℚ) ≠ min ((7/10 : ℚ) + 1/10) (19/20) := by
  refine ⟨by decide, by decide, rfl, ?_⟩
  have h1 : (7:ℚ)/10 + 1/10 = 4/5 := by norm_num
  rw [h1, min_eq_left (by norm_num : (4:ℚ)/5 ≤ 19/20)]
  norm_num

/-- One tick of the loading-progress interval in the active
`initializeDetector` (`SignLanguageContext.tsx`):
`prev >= 90 ? 90 : prev + Math.random() * 10`, with `r` the tick's
`Math.random()` draw. -/
def progressTick (p r : ℚ) : ℚ := if 90 ≤ p then 90 else p + r * 10

/-- The published progress after ticks drawing the randoms `rs`, starting
from the initial state 0. -/
def loadProg (rs : List ℚ) : ℚ := rs.foldl progressTick 0

/-- `setModelLoadingProgress(100)` on successful initialization. -/
def initLoadSuccess (_ : ℚ) : ℚ := 100

/-- `setModelLoadingProgress(0)` in the initialization `catch` handler. -/
def initLoadFailure (_ : ℚ) : ℚ := 0

/-- The progress trace in which every tick draws `Math.random() = 0.95`. -/
def overshootTrace : ℕ → ℚ
  | 0 => 0
  | n + 1 => progressTick (overshootTrace n) (19/20)

lemma progressTick_bounds (p r : ℚ) (hp0 : 0 ≤ p) (_hp1 : p < 100)
    (hr0 : 0 ≤ r) (hr1 : r < 1) :
    0 ≤ progressTick p r ∧ progressTick p r < 100 := by
  unfold progressTick
  by_cases h90 : 90 ≤ p
  · rw [if_pos h90]
    norm_num
  · rw [if_neg h90]
    have hru : r * 10 < 10 := by nlinarith
    have hrl : 0 ≤ r * 10 := by positivity
    constructor <;> [linarith; ·push_neg at h90; linarith]

lemma loadProg_bounds_aux (rs : List ℚ) :
    ∀ p : ℚ, 0 ≤ p → p < 100 → (∀ r ∈ rs, 0 ≤ r ∧ r < 1) →
      0 ≤ rs.foldl progressTick p ∧ rs.foldl progressTick p < 100 := by
  induction rs with
  | nil => intro p h0 h1 _; exact ⟨h0, h1⟩
  | cons r rest ih =>
      intro p h0 h1 hr
      obtain ⟨hr0, hr1⟩ := hr r (by simp)
      obtain ⟨hs0, hs1⟩ := progressTick_bounds p r h0 h1 hr0 hr1
      rw [List.foldl_cons]
      exact ih (progressTick p r) hs0 hs1 (fun x hx => hr x (by simp [hx]))

/-- C8 amended: the published loading progress starts at 0, stays within
[0,100) for every valid sequence of `Math.random()` draws, reaches exactly
100 on success and is reset to 0 on failure; but it is not monotone: a
tick can decrease the value, and every decrease is a single clamp of a
value in (90,100) down to exactly 90, after which the interval value stays
at 90. -/
theorem C8_progress_bounds :
    (∀ (p r : ℚ), 0 ≤ p → p < 100 → 0 ≤ r → r < 1 →
      0 ≤ progressTick p r ∧ progressTick p r < 100) ∧
    (∀ rs : List ℚ, (∀ r ∈ rs, 0 ≤ r ∧ r < 1) →
      0 ≤ loadProg rs ∧ loadProg rs < 100) ∧
    (∀ (p r : ℚ), 0 ≤ r → progressTick p r < p →
      90 < p ∧ progressTick p r = 90) ∧
    (∀ r : ℚ, progressTick 90 r = 90) ∧
    (∀ p : ℚ, initLoadSuccess p = 100 ∧ initLoadFailure p = 0) := by
  refine ⟨progressTick_bounds, ?_, ?_, ?_, fun p => ⟨rfl, rfl⟩⟩
  · intro rs hr
    exact loadProg_bounds_aux rs 0 (le_refl 0) (by norm_num) hr
  · intro p r hr0 hlt
    unfold progressTick at hlt ⊢
    by_cases h90 : 90 ≤ p
    · rw [if_pos h90] at hlt ⊢
      exact ⟨hlt, rfl⟩
    · rw [if_neg h90] at hlt
      have : 0 ≤ r * 10 := by positivity
      linarith
  · intro r
    unfold progressTick
    rw [if_pos (le_refl (90:ℚ))]

/-- Witness for the amended C8 at concrete inputs. -/
theorem C8_progress_bounds_witness :
    (0 ≤ progressTick 50 (1/2) ∧ progressTick 50 (1/2) < 100) ∧
    (0 ≤ loadProg [1/2, 1/2] ∧ loadProg [1/2, 1/2] < 100) ∧
    (90 < (95:ℚ) ∧ progressTick 95 0 = 90) ∧
    progressTick 90 (1/2) = 90 ∧
    initLoadSuccess 55 = 100 ∧ initLoadFailure 55 = 0 :=
  ⟨C8_progress_bounds.1 50 (1/2) (by norm_num) (by norm_num) (by norm_num)
     (by norm_num),
   C8_progress_bounds.2.1 [1/2, 1/2]
     (by
       intro r hr
       simp only [List.mem_cons, List.not_mem_nil, or_false] at hr
       rcases hr with rfl | rfl <;> norm_num),
   C8_progress_bounds.2.2.1 95 0 (le_refl 0)
     (by
       unfold progressTick
       rw [if_pos (by norm_num : (90:ℚ) ≤ 95)]
       norm_num),
   C8_progress_bounds.2.2.2.1 (1/2),
   (C8_progress_bounds.2.2.2.2 55).1, (C8_progress_bounds.2.2.2.2 55).2⟩

/-- C8 counterexample: with the valid draw 0.95 at every tick, the
published progress climbs to 95 at tick 10 and is clamped down to 90 at
tick 11 — a strict decrease, so the progress is not monotonically
non-decreasing. -/
theorem C8_counterexample :
    (0 ≤ (19/20 : ℚ) ∧ (19/20 : ℚ) < 1) ∧
    overshootTrace 10 = 95 ∧ overshootTrace 11 = 90 ∧
    overshootTrace 11 < overshootTrace 10 := by
  have h0 : overshootTrace 0 = 0 := rfl
  have stepUp : ∀ (n : ℕ) (x : ℚ), overshootTrace n = x → x < 90 →
      overshootTrace (n + 1) = x + 19/2 := by
    intro n x hx hlt
    rw [overshootTrace, hx, progressTick, if_neg (not_le.mpr hlt)]
    norm_num
  have h1 : overshootTrace 1 = 19/2 := by
    rw [stepUp 0 0 h0 (by norm_num)]; norm_num
  have h2 : overshootTrace 2 = 19 := by
    rw [stepUp 1 (19/2) h1 (by norm_num)]; norm_num
  have h3 : overshootTrace 3 = 57/2 := by
    rw [stepUp 2 19 h2 (by norm_num)]; norm_num
  have h4 : overshootTrace 4 = 38 := by
    rw [stepUp 3 (57/2) h3 (by norm_num)]; norm_num
  have h5 : overshootTrace 5 = 95/2 := by
    rw [stepUp 4 38 h4 (by norm_num)]; norm_num
  have h6 : overshootTrace 6 = 57 := by
    rw [stepUp 5 (95/2) h5 (by norm_num)]; norm_num
  have h7 : overshootTrace 7 = 133/2 := by
    rw [stepUp 6 57 h6 (by norm_num)]; norm_num
  have h8 : overshootTrace 8 = 76 := by
    rw [stepUp 7 (133/2) h7 (by norm_num)]; norm_num
  have h9 : overshootTrace 9 = 171/2 := by
    rw [stepUp 8 76 h8 (by norm_num)]; norm_num
  have h10 : overshootTrace 10 = 95 := by
    rw [stepUp 9 (171/2) h9 (by norm_num)]; norm_num
  have h11 : overshootTrace 11 = 90 := by
    rw [overshootTrace, h10, progressTick,
      if_pos (by norm_num : (90:ℚ) ≤ 95)]
  refine ⟨⟨by norm_num, by norm_num⟩, h10, h11, ?_⟩
  rw [h10, h11]
  norm_num

/-- A gesture string drawn from the detector's closed label set. -/
def wfGesture (g : String) : Prop := g = "hello" ∨ g = "thankyou"

/-- Well-formedness of a history entry: label from the closed label set
and confidence strictly above 0.5. -/
def wfEntry (e : Prediction) : Prop := wfGesture e.gesture ∧ 1/2 < e.confidence

/-- Every entry of the list is well-formed. -/
def wfHistory (l : List Prediction) : Prop := ∀ e ∈ l, wfEntry e

lemma maxIndex_pair (p0 p1 : ℚ) :
    maxIndex [p0, p1] = 0 ∨ maxIndex [p0, p1] = 1 := by
  unfold maxIndex
  simp only [listMax, List.foldl_cons, List.foldl_nil]
  rcases max_cases p0 p1 with ⟨hm, _⟩ | ⟨hm, hlt⟩
  · left
    rw [hm]
    simp [List.indexOf_cons]
  · right
    rw [hm]
    have hne : p0 ≠ p1 := ne_of_lt hlt
    simp [List.indexOf_cons, hne]

lemma classifyFromPrediction_wf (res : Except String (List ℚ))
    (r : DetectionResult)
    (h2 : ∀ probs, res = .ok probs → probs.length = 2)
    (h : classifyFromPrediction res = some r) :
    wfGesture r.gesture ∧ 3/5 < r.confidence := by
  match res with
  | .error e => simp [classifyFromPrediction] at h
  | .ok probs =>
      have hlen : probs.length = 2 := h2 probs rfl
      obtain ⟨p0, p1, rfl⟩ : ∃ p0 p1, probs = [p0, p1] := by
        match probs, hlen with
        | [p0, p1], _ => exact ⟨p0, p1, rfl⟩
      simp only [classifyFromPrediction] at h
      by_cases hc : 3/5 < List.getD [p0, p1] (maxIndex [p0, p1]) 0
      · rw [if_pos hc] at h
        obtain rfl := Option.some_inj.mp h
        refine ⟨?_, hc⟩
        rcases maxIndex_pair p0 p1 with hi | hi <;> rw [hi] <;>
          simp [wfGesture, labelMap]
      · rw [if_neg hc] at h
        cases h

lemma detectGesture_some_wf (isInit : Bool) (buf : List (List ℚ))
    (lr : Except String (Option (List ℚ)))
    (predict : List (List ℚ) → Except String (List ℚ))
    (r : DetectionResult) (b2 : List (List ℚ))
    (h2 : ∀ input probs, predict input = .ok probs → probs.length = 2)
    (h : detectGesture isInit buf lr predict = (some r, b2)) :
    wfGesture r.gesture ∧ 3/5 < r.confidence := by
  unfold detectGesture at h
  by_cases hinit : isInit = true
  · simp only [hinit] at h
    rcases lr with e | olms
    · simp at h
    · rcases olms with _ | lms
      · simp at h
      · by_cases hlms : lms.length = 0
        · simp [hlms] at h
        · by_cases hlen : (sequencePush buf lms).length < SEQUENCE_LENGTH
          · simp [hlms, hlen] at h
          · simp [hlms, hlen] at h
            exact classifyFromPrediction_wf _ r (h2 _) h.1
  · simp [hinit] at h

lemma mem_sliceLast {l : List Prediction} {n : ℕ} {x : Prediction}
    (hx : x ∈ sliceLast n l) : x ∈ l := by
  unfold sliceLast at hx
  exact List.drop_subset _ _ hx

lemma mem_appendPrediction {prev : List Prediction} {p x : Prediction}
    (hx : x ∈ appendPrediction prev p) : x ∈ prev ∨ x = p := by
  cases hlast : prev.getLast? with
  | none =>
      simp only [appendPrediction, hlast] at hx
      rcases List.mem_append.mp (mem_sliceLast hx) with h | h
      · exact Or.inl h
      · exact Or.inr (List.mem_singleton.mp h)
  | some lastP =>
      simp only [appendPrediction, hlast] at hx
      by_cases hskip :
          lastP.gesture = p.gesture ∧ p.timestamp - lastP.timestamp < 2000
      · rw [if_pos hskip] at hx
        exact Or.inl hx
      · rw [if_neg hskip] at hx
        rcases List.mem_append.mp (mem_sliceLast hx) with h | h
        · exact Or.inl h
        · exact Or.inr (List.mem_singleton.mp h)

lemma processFrame_wfHistory (s : CtrlState)
    (outcome : Except String (Option DetectionResult)) (now : ℤ)
    (hwf : wfHistory s.predictionHistory)
    (hout : ∀ d, outcome = .ok (some d) →
      wfGesture d.gesture ∧ 3/5 < d.confidence) :
    wfHistory (processFrame true true s outcome now).predictionHistory := by
  obtain ⟨hh, hp, hc⟩ := submitFrame_fst_fields true true s now
  by_cases hgo : (submitFrame true true s now).2 = true
  · rcases outcome with e | result
    · simp only [processFrame, hgo]
      simp [hh]
      exact hwf
    · rcases result with _ | r
      · by_cases hdet : s.isDetecting = true <;>
          · simp only [processFrame, hgo]
            simp [applyResult, hdet, hh]
            exact hwf
      · by_cases hdet : s.isDetecting = true
        · by_cases hcR : (2⁻¹ : ℚ) < r.confidence
          · have hr := hout r rfl
            simp only [processFrame, hgo]
            simp [applyResult, hdet, hcR, hh]
            intro e he
            rcases mem_appendPrediction he with hmem | rfl
            · exact hwf e hmem
            · exact ⟨hr.1, lt_trans (by norm_num) hr.2⟩
          · simp only [processFrame, hgo]
            simp [applyResult, hdet, hcR, hh]
            exact hwf
        · simp only [processFrame, hgo]
          simp [applyResult, hdet, hh]
          exact hwf
  · simp only [processFrame, hgo]
    simp [hh]
    exact hwf

lemma foldProcess_wfHistory
    (frames : List (Except String (Option DetectionResult) × ℤ)) :
    ∀ s : CtrlState, wfHistory s.predictionHistory →
      (∀ x ∈ frames, ∀ d, x.1 = .ok (some d) →
        wfGesture d.gesture ∧ 3/5 < d.confidence) →
      wfHistory ((frames.foldl
        (fun t x => processFrame true true t x.1 x.2) s).predictionHistory) := by
  induction frames with
  | nil => intro s h _; simpa using h
  | cons x rest ih =>
      intro s h hf
      rw [List.foldl_cons]
      exact ih _
        (processFrame_wfHistory s x.1 x.2 h (fun d hd => hf x (by simp) d hd))
        (fun y hy => hf y (by simp [hy]))

/-- C10: every history entry is well-formed.  A non-null `detectGesture`
result always carries a gesture from the closed label set
{`hello`, `thankyou`} with confidence above the detector's 0.6 gate (given
the model's length-2 softmax output); and along any controller execution
fed by such results, every entry of the prediction history has a gesture
from that set and confidence strictly greater than 0.5. -/
theorem C10_history_wellformed :
    (∀ (isInit : Bool) (buf : List (List ℚ))
        (lr : Except String (Option (List ℚ)))
        (predict : List (List ℚ) → Except String (List ℚ))
        (r : DetectionResult) (b2 : List (List ℚ)),
      (∀ input probs, predict input = .ok probs → probs.length = 2) →
      detectGesture isInit buf lr predict = (some r, b2) →
      wfGesture r.gesture ∧ 3/5 < r.confidence) ∧
    (∀ frames : List (Except String (Option DetectionResult) × ℤ),
      (∀ x ∈ frames, ∀ d, x.1 = .ok (some d) →
        wfGesture d.gesture ∧ 3/5 < d.confidence) →
      wfHistory ((frames.foldl
        (fun t x => processFrame true true t x.1 x.2)
        idleState).predictionHistory)) :=
  ⟨detectGesture_some_wf, fun frames hf =>
    foldProcess_wfHistory frames idleState
      (by intro e he; simp [idleState] at he) hf⟩

lemma listMax_one_zero : listMax [(1:ℚ), 0] = 1 := by
  simp only [listMax, List.foldl_cons, List.foldl_nil]
  exact max_eq_left (by norm_num)

lemma maxIndex_one_zero : maxIndex [(1:ℚ), 0] = 0 := by
  unfold maxIndex
  rw [listMax_one_zero]
  simp [List.indexOf_cons]

lemma classify_one_zero :
    classifyFromPrediction (.ok [(1:ℚ), 0]) = some ⟨"hello", 1⟩ := by
  simp only [classifyFromPrediction, maxIndex_one_zero]
  have hgd : List.getD [(1:ℚ), 0] 0 0 = 1 := rfl
  rw [hgd, if_pos (by norm_num : (3:ℚ)/5 < 1)]
  rfl

lemma detect_warm_hello :
    detectGesture true (List.replicate 29 [(0:ℚ)]) (.ok (some [(0:ℚ)]))
      (fun _ => .ok [1, 0]) =
    (some ⟨"hello", 1⟩, List.replicate 30 [(0:ℚ)]) := by
  have hpush : sequencePush (List.replicate 29 [(0:ℚ)]) [(0:ℚ)] =
      List.replicate 30 [(0:ℚ)] := by decide
  have hlen : ¬ (List.replicate 30 [(0:ℚ)]).length < SEQUENCE_LENGTH := by
    decide
  have hlms : ¬ (([(0:ℚ)] : List ℚ).length = 0) := by decide
  simp [detectGesture, hpush, hlms, hlen, classify_one_zero,
    -List.reduceReplicate]
  decide

/-- Witness for C10 at a concrete input: a warm buffer and a softmax
output `[1, 0]` yield the well-formed result `(hello, 1)`. -/
theorem C10_history_wellformed_witness :
    wfGesture (DetectionResult.gesture ⟨"hello", 1⟩) ∧
    (3:ℚ)/5 < DetectionResult.confidence ⟨"hello", 1⟩ :=
  C10_history_wellformed.1 true (List.replicate 29 [(0:ℚ)])
    (.ok (some [(0:ℚ)])) (fun _ => .ok [1, 0]) ⟨"hello", 1⟩
    (List.replicate 30 [(0:ℚ)])
    (fun input probs h => by
      injection h with h'
      rw [← h']
      rfl)
    detect_warm_hello
